import Mathlib

/-!
Shallow embedding of the Wayland screencopy screenshot client
(src/src/main.rs) and verification of its specification claims.

The client discovers three globals (wl_shm, zwlr_screencopy_manager_v1,
wl_output), provisions a 1920 x 1080 XRGB8888 shared-memory buffer, drives
one screencopy frame handshake, converts the captured bytes from
(B, G, R, X) order to (R, G, B, 0xFF) order and hands the result to the
image encoder.  Handlers are embedded as pure functions from the session
state and the incoming event to the new state plus a list of emitted
protocol requests and effects.  Fallible steps (slice indexing, the
unwrap on ImageBuffer.from_raw) are embedded with Option / an explicit
panicked outcome.
-/

namespace Screencopy

/-- The only pixel format the client requests (wl_shm::Format::Xrgb8888). -/
inductive PixelFormat where
  | xrgb8888
deriving DecidableEq

/-- Geometry of the one protocol buffer the client creates:
pool.create_buffer(0, init_w, init_h, stride, Xrgb8888). -/
structure BufferRef where
  offset : Nat
  width : Nat
  height : Nat
  stride : Nat
  format : PixelFormat
deriving DecidableEq

/-- Outcome of State::save_image: the method silently returns when no
mapped region exists, aborts the process on an out-of-range chunk index or
on the from_raw unwrap, or emits the converted RGBA byte array. -/
inductive SaveResult where
  | noBuffer
  | panicked
  | saved (img : List Nat)
deriving DecidableEq

/-- The struct State of main.rs.  The mapped memory region is embedded as
the list of its bytes; the screencopy manager handle carries no data that
the program reads, so it is embedded as Option Unit. -/
structure State where
  running : Bool
  mmap : Option (List Nat)
  buffer : Option BufferRef
  screencopy_man : Option Unit
deriving DecidableEq

/-- State::new(): running is true, every other field keeps its Default
value (None). -/
def State.new : State :=
  { running := true, mmap := none, buffer := none, screencopy_man := none }

/-- Rust slice::chunks(4): full 4-byte chunks in order, then the nonempty
remainder (1 to 3 bytes) as a final short chunk. -/
def chunks4 : List Nat → List (List Nat)
  | [] => []
  | a :: b :: c :: d :: rest => [a, b, c, d] :: chunks4 rest
  | l => [l]

/-- The per-chunk body of save_image: vec![chunk[2], chunk[1], chunk[0],
0xFF].  Indexing a chunk shorter than 3 bytes panics, embedded as none. -/
def remapChunk (chunk : List Nat) : Option (List Nat) := do
  let r ← chunk.get? 2
  let g ← chunk.get? 1
  let b ← chunk.get? 0
  pure [r, g, b, 255]

/-- The flat_map(...).collect() over all chunks: concatenates the 4-byte
outputs, propagating a panic from any chunk. -/
def remapChunks : List (List Nat) → Option (List Nat)
  | [] => some []
  | c :: cs => do
    let p ← remapChunk c
    let rest ← remapChunks cs
    pure (p ++ rest)

/-- The whole conversion pipeline of save_image applied to the mapped
bytes: mmap[..].chunks(4).flat_map(...).collect(). -/
def convertPixels (bytes : List Nat) : Option (List Nat) :=
  remapChunks (chunks4 bytes)

/-- State::save_image.  ImageBuffer::from_raw(1920, 1080, rgba_data)
returns Some exactly when the container holds at least
width * height * 4 bytes (its documented contract: None when the buffer
is not big enough); the .unwrap() on its result and a chunk indexing
panic are the panicked outcome. -/
def save_image (s : State) : SaveResult :=
  match s.mmap with
  | none => SaveResult.noBuffer
  | some bytes =>
    match convertPixels bytes with
    | none => SaveResult.panicked
    | some rgba =>
      if 1920 * 1080 * 4 ≤ rgba.length then SaveResult.saved rgba
      else SaveResult.panicked

/-- Protocol requests and observable effects a handler emits, in program
order. -/
inductive Action where
  | bindShm
  | setFileLen (n : Nat)
  | createPool (size : Nat)
  | createBuffer (b : BufferRef)
  | bindScreencopyMan
  | bindOutput
  | destroyFrame
  | setRunning (b : Bool)
  | emitImage (r : SaveResult)
  | copy (b : BufferRef)
  | captureOutput (transform : Nat)
deriving DecidableEq

/-- Events of zwlr_screencopy_frame_v1 as delivered to the Dispatch impl;
the source matches Ready and BufferDone and ignores the rest. -/
inductive FrameEvent where
  | buffer
  | flags
  | ready
  | failed
  | damage
  | linuxDmabuf
  | bufferDone
deriving DecidableEq

/-- Events of wl_output: the source matches Done and ignores every other
event identically. -/
inductive OutputEvent where
  | done
  | other
deriving DecidableEq

/-- One event routed by the dispatch machinery to the matching handler.
A registry Global event carries the interface name. -/
inductive Ev where
  | global (interface : String)
  | frame (e : FrameEvent)
  | output (e : OutputEvent)
deriving DecidableEq

/-- Result of the wl_shm arm of the registry handler. -/
structure ProvisionResult where
  stride : Nat
  size : Nat
  buffer : BufferRef
  fileBytes : List Nat
deriving DecidableEq

/-- The buffer provisioning block of the wl_shm arm: stride = init_w * 4,
size = stride * init_h, a zero-initialised backing file truncated to
exactly size bytes and mapped, and one buffer descriptor at offset 0. -/
def provision (init_w init_h : Nat) : ProvisionResult :=
  let stride := init_w * 4
  let size := stride * init_h
  { stride := stride
    size := size
    buffer := { offset := 0, width := init_w, height := init_h,
                stride := stride, format := PixelFormat.xrgb8888 }
    fileBytes := List.replicate size 0 }

/-- The Dispatch impl for WlRegistry: dispatch on the interface name of a
Global event; the code fixes (init_w, init_h) = (1920, 1080). -/
def registryGlobal (s : State) (interface : String) : State × List Action :=
  if interface = "wl_shm" then
    let p := provision 1920 1080
    ({ s with buffer := some p.buffer, mmap := some p.fileBytes },
     [Action.bindShm, Action.setFileLen p.size, Action.createPool p.size,
      Action.createBuffer p.buffer])
  else if interface = "zwlr_screencopy_manager_v1" then
    ({ s with screencopy_man := some () }, [Action.bindScreencopyMan])
  else if interface = "wl_output" then
    (s, [Action.bindOutput])
  else
    (s, [])

/-- The Dispatch impl for ZwlrScreencopyFrameV1: Ready destroys the frame,
clears running and invokes save_image; BufferDone issues copy when a
buffer exists; every other event is ignored. -/
def frameEvent (s : State) : FrameEvent → State × List Action
  | FrameEvent.ready =>
    let s' := { s with running := false }
    (s', [Action.destroyFrame, Action.setRunning false,
          Action.emitImage (save_image s')])
  | FrameEvent.bufferDone =>
    match s.buffer with
    | some b => (s, [Action.copy b])
    | none => (s, [])
  | _ => (s, [])

/-- The Dispatch impl for WlOutput: on Done, capture_output(0, output) if
the screencopy manager is bound, else return; other events ignored. -/
def outputEvent (s : State) : OutputEvent → State × List Action
  | OutputEvent.done =>
    match s.screencopy_man with
    | none => (s, [])
    | some _ => (s, [Action.captureOutput 0])
  | OutputEvent.other => (s, [])

/-- Route one event to its handler. -/
def dispatchEv (s : State) : Ev → State × List Action
  | Ev.global i => registryGlobal s i
  | Ev.frame e => frameEvent s e
  | Ev.output e => outputEvent s e

/-- One processed frame event with the actions it emitted and the state
it left behind. -/
structure FrameStep where
  ev : FrameEvent
  actions : List Action
  after : State
deriving DecidableEq

/-- Run the frame handler over a sequence of frame events, recording each
step. -/
def runFrames (s : State) : List FrameEvent → List FrameStep
  | [] => []
  | e :: es =>
    let r := frameEvent s e
    { ev := e, actions := r.2, after := r.1 } :: runFrames r.1 es

/-- The actions emitted while handling the i-th frame event. -/
def actionsAt (s : State) (evs : List FrameEvent) (i : Nat) : List Action :=
  match (runFrames s evs).get? i with
  | some st => st.actions
  | none => []

/-- The state after the frame handler has consumed a list of events. -/
def stateAfterFrames (s : State) (evs : List FrameEvent) : State :=
  evs.foldl (fun st e => (frameEvent st e).1) s

/-- One blocking_dispatch call: every buffered event is handled before
control returns to the loop. -/
def runBatch (s : State) : List Ev → State × List (Ev × List Action)
  | [] => (s, [])
  | e :: es =>
    let r := dispatchEv s e
    let rest := runBatch r.1 es
    (rest.1, (e, r.2) :: rest.2)

/-- The main loop: while running, dispatch the next batch; the flag is
only observed between batches. -/
def runLoop (s : State) : List (List Ev) → State × List (Ev × List Action)
  | [] => (s, [])
  | batch :: more =>
    if s.running then
      let r := runBatch s batch
      let rest := runLoop r.1 more
      (rest.1, r.2 ++ rest.2)
    else
      (s, [])

/-- All actions emitted over a recorded run, in order. -/
def allActions (steps : List (Ev × List Action)) : List Action :=
  (steps.map Prod.snd).flatten

/-- The images emitted (saved to output.png) among a list of actions. -/
def producedImages (as : List Action) : List (List Nat) :=
  as.filterMap fun a =>
    match a with
    | Action.emitImage (SaveResult.saved img) => some img
    | _ => none

/-- Whether any action records a process abort (an unwrap failure inside
save_image). -/
def hasPanic (as : List Action) : Bool :=
  as.any fun a => a = Action.emitImage SaveResult.panicked

/-- How many times running is assigned false over a list of actions. -/
def assignsFalseCount : List Action → Nat
  | [] => 0
  | Action.setRunning false :: rest => assignsFalseCount rest + 1
  | _ :: rest => assignsFalseCount rest

/-- The 4 bytes of one input pixel (b, g, r, x) in memory order. -/
def pixelBytes (p : Nat × Nat × Nat × Nat) : List Nat :=
  [p.1, p.2.1, p.2.2.1, p.2.2.2]

/-- The per-pixel remap of save_image as a total map on 4-byte groups:
(b, g, r, x) becomes (r, g, b, 0xFF). -/
def groupRemap (p : Nat × Nat × Nat × Nat) : Nat × Nat × Nat × Nat :=
  (p.2.2.1, p.2.1, p.1, 255)

/-! Helper lemmas about the conversion pipeline. -/

lemma convertPixels_cons4 (a b c d : Nat) (rest : List Nat) :
    convertPixels (a :: b :: c :: d :: rest) =
      (convertPixels rest).map (fun t => c :: b :: a :: 255 :: t) := by
  show remapChunks ([a, b, c, d] :: chunks4 rest) = _
  cases h : remapChunks (chunks4 rest) <;>
    simp [remapChunks, remapChunk, convertPixels, h]

lemma convertPixels_pixelBytes :
    ∀ pxs : List (Nat × Nat × Nat × Nat),
      convertPixels (pxs.flatMap pixelBytes) =
        some (pxs.flatMap fun p => [p.2.2.1, p.2.1, p.1, 255]) := by
  intro pxs
  induction pxs with
  | nil => rfl
  | cons p rest ih =>
    obtain ⟨a, b, c, d⟩ := p
    have hb : (((a, b, c, d) :: rest).flatMap pixelBytes) =
        a :: b :: c :: d :: rest.flatMap pixelBytes := rfl
    rw [hb, convertPixels_cons4, ih]
    rfl

/-- Shape of the conversion output: a panic exactly when the final short
chunk has 1 or 2 bytes, otherwise 4 output bytes per chunk. -/
lemma convertPixels_shape :
    ∀ l : List Nat,
      (convertPixels l).map List.length =
        if l.length % 4 = 1 ∨ l.length % 4 = 2 then none
        else some (4 * ((l.length + 3) / 4))
  | [] => by decide
  | [a] => rfl
  | [a, b] => rfl
  | [a, b, c] => by norm_num [convertPixels, chunks4, remapChunks, remapChunk]
  | a :: b :: c :: d :: rest => by
    have ih := convertPixels_shape rest
    rw [convertPixels_cons4]
    have hlen : (a :: b :: c :: d :: rest).length = rest.length + 4 := by
      simp
    by_cases hc : rest.length % 4 = 1 ∨ rest.length % 4 = 2
    · rw [if_pos hc] at ih
      have hnone : convertPixels rest = none := by
        cases h : convertPixels rest with
        | none => rfl
        | some out => rw [h] at ih; simp at ih
      have hc4 : (rest.length + 4) % 4 = 1 ∨ (rest.length + 4) % 4 = 2 := by
        omega
      rw [hnone, hlen, if_pos hc4]
      rfl
    · rw [if_neg hc] at ih
      obtain ⟨out, hout⟩ : ∃ out, convertPixels rest = some out := by
        cases h : convertPixels rest with
        | none => rw [h] at ih; simp at ih
        | some out => exact ⟨out, rfl⟩
      rw [hout] at ih
      have hol : out.length = 4 * ((rest.length + 3) / 4) := by
        simpa using ih
      have hc4 : ¬((rest.length + 4) % 4 = 1 ∨ (rest.length + 4) % 4 = 2) := by
        omega
      rw [hout, hlen, if_neg hc4]
      simp only [Option.map_map, Option.map_some']
      simp [Function.comp]
      omega

/-- Unfolding of save_image when a mapped region exists. -/
lemma save_image_mmap_some (s : State) (bytes : List Nat)
    (h : s.mmap = some bytes) :
    save_image s =
      match convertPixels bytes with
      | none => SaveResult.panicked
      | some rgba =>
        if 1920 * 1080 * 4 ≤ rgba.length then SaveResult.saved rgba
        else SaveResult.panicked := by
  unfold save_image
  rw [h]

/-- The save step with a mapped region of the given bytes: aborts exactly
when indexing a short chunk panics or the converted array is too small
for a 1920 x 1080 RGBA image. -/
lemma save_image_panicked_iff (bytes : List Nat) :
    save_image { State.new with mmap := some bytes } = SaveResult.panicked ↔
      (bytes.length % 4 = 1 ∨ bytes.length % 4 = 2 ∨
        4 * ((bytes.length + 3) / 4) < 1920 * 1080 * 4) := by
  have hs := convertPixels_shape bytes
  rw [save_image_mmap_some _ bytes rfl]
  split
  · next heq =>
    rw [heq] at hs
    simp only [true_iff]
    by_cases hc : bytes.length % 4 = 1 ∨ bytes.length % 4 = 2
    · tauto
    · rw [if_neg hc] at hs
      simp at hs
  · next rgba heq =>
    rw [heq] at hs
    by_cases hc : bytes.length % 4 = 1 ∨ bytes.length % 4 = 2
    · rw [if_pos hc] at hs
      simp at hs
    · rw [if_neg hc] at hs
      have hlen : rgba.length = 4 * ((bytes.length + 3) / 4) := by
        simpa using hs
      by_cases hfit : 1920 * 1080 * 4 ≤ rgba.length
      · rw [if_pos hfit]
        constructor
        · intro hsp; cases hsp
        · intro hor; omega
      · rw [if_neg hfit]
        constructor
        · intro _; right; right; omega
        · intro _; rfl

/-- The save step with a mapped region is either an abort or a saved
image. -/
lemma save_image_some_cases (bytes : List Nat) :
    save_image { State.new with mmap := some bytes } = SaveResult.panicked ∨
    ∃ img, save_image { State.new with mmap := some bytes } =
        SaveResult.saved img := by
  rw [save_image_mmap_some _ bytes rfl]
  split
  · left; rfl
  · split_ifs
    · right; exact ⟨_, rfl⟩
    · left; rfl

/-- The save step emits an image exactly when it does not abort. -/
lemma save_image_saved_iff (bytes : List Nat) :
    (∃ img, save_image { State.new with mmap := some bytes } =
        SaveResult.saved img) ↔
      ¬(bytes.length % 4 = 1 ∨ bytes.length % 4 = 2 ∨
        4 * ((bytes.length + 3) / 4) < 1920 * 1080 * 4) := by
  rw [← save_image_panicked_iff]
  constructor
  · rintro ⟨img, himg⟩ hpan
    rw [himg] at hpan
    cases hpan
  · intro hnp
    cases save_image_some_cases bytes with
    | inl h => exact absurd h hnp
    | inr h => exact h

/-! Helper lemmas about the frame handler. -/

/-- The copy request is only ever emitted while handling BufferDone. -/
lemma copy_only_at_bufferDone (s : State) (e : FrameEvent) (b : BufferRef)
    (h : Action.copy b ∈ (frameEvent s e).2) : e = FrameEvent.bufferDone := by
  cases e <;>
    first
      | rfl
      | simp [frameEvent] at h

/-- Only the Ready branch writes the running flag. -/
lemma frameEvent_running (s : State) (e : FrameEvent) :
    (frameEvent s e).1.running =
      if e = FrameEvent.ready then false else s.running := by
  cases e <;> (cases hb : s.buffer <;> simp [frameEvent, hb])

lemma actionsAt_nil (s : State) (i : Nat) : actionsAt s [] i = [] := by
  cases i <;> rfl

lemma actionsAt_zero (s : State) (e : FrameEvent) (es : List FrameEvent) :
    actionsAt s (e :: es) 0 = (frameEvent s e).2 := rfl

lemma actionsAt_succ (s : State) (e : FrameEvent) (es : List FrameEvent)
    (i : Nat) :
    actionsAt s (e :: es) (i + 1) = actionsAt (frameEvent s e).1 es i := rfl

/-- A copy at step i implies a BufferDone among the first i + 1 events. -/
lemma copy_needs_bufferDone :
    ∀ (evs : List FrameEvent) (s : State) (i : Nat) (b : BufferRef),
      Action.copy b ∈ actionsAt s evs i →
      FrameEvent.bufferDone ∈ evs.take (i + 1) := by
  intro evs
  induction evs with
  | nil => intro s i b h; rw [actionsAt_nil] at h; cases h
  | cons e es ih =>
    intro s i b h
    cases i with
    | zero =>
      rw [actionsAt_zero] at h
      have he := copy_only_at_bufferDone s e b h
      subst he
      simp
    | succ i =>
      rw [actionsAt_succ] at h
      have := ih (frameEvent s e).1 i b h
      simp only [List.take_succ_cons, List.mem_cons]
      right
      exact this

/-- The running flag only reaches false after a Ready event was handled. -/
lemma running_false_needs_ready :
    ∀ (evs : List FrameEvent) (s : State) (n : Nat),
      s.running = true →
      (stateAfterFrames s (evs.take n)).running = false →
      FrameEvent.ready ∈ evs.take n := by
  intro evs
  induction evs with
  | nil =>
    intro s n h1 h2
    simp [stateAfterFrames] at h2
    rw [h1] at h2
    cases h2
  | cons e es ih =>
    intro s n h1 h2
    cases n with
    | zero =>
      simp [stateAfterFrames] at h2
      rw [h1] at h2
      cases h2
    | succ n =>
      simp only [List.take_succ_cons, List.mem_cons]
      by_cases he : e = FrameEvent.ready
      · left; exact he.symm
      · right
        have hrun : (frameEvent s e).1.running = true := by
          rw [frameEvent_running, if_neg he, h1]
        have hafter : stateAfterFrames s (e :: es.take n) =
            stateAfterFrames (frameEvent s e).1 (es.take n) := rfl
        rw [List.take_succ_cons, hafter] at h2
        exact ih (frameEvent s e).1 n hrun h2

/-! Helper lemmas about the dispatch of one event. -/

/-- No handler other than the frame Ready branch writes the running
flag. -/
lemma dispatchEv_running (s : State) (ev : Ev) :
    (dispatchEv s ev).1.running =
      if ev = Ev.frame FrameEvent.ready then false else s.running := by
  cases ev with
  | global i =>
    have hne : (Ev.global i = Ev.frame FrameEvent.ready) = False := by simp
    simp only [hne, if_false]
    simp only [dispatchEv, registryGlobal]
    split_ifs <;> rfl
  | frame e =>
    have he : (Ev.frame e = Ev.frame FrameEvent.ready) =
        (e = FrameEvent.ready) := by simp
    simp only [he]
    show (frameEvent s e).1.running = _
    exact frameEvent_running s e
  | output e =>
    have hne : (Ev.output e = Ev.frame FrameEvent.ready) = False := by simp
    simp only [hne, if_false]
    cases e with
    | done =>
      show (outputEvent s OutputEvent.done).1.running = _
      cases hm : s.screencopy_man <;> simp [outputEvent, hm]
    | other => rfl

/-- Exactly the frame Ready branch performs the running := false
assignment, once. -/
lemma dispatchEv_assignsFalse (s : State) (ev : Ev) :
    assignsFalseCount (dispatchEv s ev).2 =
      if ev = Ev.frame FrameEvent.ready then 1 else 0 := by
  cases ev with
  | global i =>
    have hne : (Ev.global i = Ev.frame FrameEvent.ready) = False := by simp
    simp only [hne, if_false]
    simp only [dispatchEv, registryGlobal]
    split_ifs <;> rfl
  | frame e =>
    have he : (Ev.frame e = Ev.frame FrameEvent.ready) =
        (e = FrameEvent.ready) := by simp
    simp only [he]
    show assignsFalseCount (frameEvent s e).2 = _
    cases e <;>
      (cases hb : s.buffer <;> simp [frameEvent, hb, assignsFalseCount])
  | output e =>
    have hne : (Ev.output e = Ev.frame FrameEvent.ready) = False := by simp
    simp only [hne, if_false]
    cases e with
    | done =>
      show assignsFalseCount (outputEvent s OutputEvent.done).2 = 0
      cases hm : s.screencopy_man <;> simp [outputEvent, hm, assignsFalseCount]
    | other => rfl

/-! The claims.  Each claim of the specification is settled by exactly one
theorem below; corrected claims also carry a counterexample theorem
refuting the claim as originally stated. -/

/-- C1: the pixel conversion performed by save_image is a pure per-pixel
remap: every 4-byte input group (b, g, r, x) yields (r, g, b, 0xFF), in
order; in particular the 4-pixel input
[(10,20,30,0), (255,0,0,0), (0,255,0,0), (0,0,255,0)] yields
[(30,20,10,255), (0,0,255,255), (0,255,0,255), (255,0,0,255)]. -/
theorem pixel_conversion_per_pixel_remap :
    (∀ pxs : List (Nat × Nat × Nat × Nat),
      convertPixels (pxs.flatMap pixelBytes) =
        some (pxs.flatMap fun p => [p.2.2.1, p.2.1, p.1, 255])) ∧
    convertPixels [10, 20, 30, 0, 255, 0, 0, 0, 0, 255, 0, 0, 0, 0, 255, 0] =
      some [30, 20, 10, 255, 0, 0, 255, 255, 0, 255, 0, 255,
            255, 0, 0, 255] :=
  ⟨convertPixels_pixelBytes, by decide⟩

/-- C2: on a Ready frame event the handler destroys the Frame, sets
running to false, and invokes the conversion-and-emit step, in that
order. -/
theorem ready_event_effects : ∀ s : State,
    frameEvent s FrameEvent.ready =
      ({ s with running := false },
       [Action.destroyFrame, Action.setRunning false,
        Action.emitImage (save_image { s with running := false })]) :=
  fun _ => rfl

/-- C3: for the resolution used by buffer provisioning, stride = width * 4
and size = stride * height, and the backing storage holds exactly size
bytes after provisioning; the registry handler runs this provisioning at
the fixed 1920 x 1080 resolution. -/
theorem provisioning_geometry : ∀ init_w init_h : Nat,
    (provision init_w init_h).stride = init_w * 4 ∧
    (provision init_w init_h).size =
      (provision init_w init_h).stride * init_h ∧
    (provision init_w init_h).fileBytes.length =
      (provision init_w init_h).size ∧
    (registryGlobal State.new "wl_shm").1.mmap =
      some (provision 1920 1080).fileBytes := by
  intro w h
  refine ⟨rfl, rfl, ?_, ?_⟩
  · simp [provision]
  · rfl

/-- C4: on a BufferDone frame event the handler issues copy(buffer) iff
the session holds a buffer; with no buffer the event is skipped silently
with no state change. -/
theorem bufferDone_copy_iff_buffer : ∀ s : State,
    (frameEvent s FrameEvent.bufferDone).1 = s ∧
    ((frameEvent s FrameEvent.bufferDone).2 =
      match s.buffer with
      | some b => [Action.copy b]
      | none => []) ∧
    ((∃ b, Action.copy b ∈ (frameEvent s FrameEvent.bufferDone).2) ↔
      s.buffer.isSome = true) := by
  intro s
  cases hb : s.buffer <;> simp [frameEvent, hb]

/-- C5: on the output Done event a capture-output request with transform
index 0 is issued iff a capture manager is bound; otherwise the event is
a no-op with unchanged state, and every other output event is ignored. -/
theorem output_done_capture_iff_manager : ∀ s : State,
    (outputEvent s OutputEvent.done).1 = s ∧
    ((outputEvent s OutputEvent.done).2 =
      match s.screencopy_man with
      | some _ => [Action.captureOutput 0]
      | none => []) ∧
    (Action.captureOutput 0 ∈ (outputEvent s OutputEvent.done).2 ↔
      s.screencopy_man.isSome = true) ∧
    outputEvent s OutputEvent.other = (s, []) := by
  intro s
  cases hm : s.screencopy_man <;> simp [outputEvent, hm]

/-- C6: over every sequence of frame events, a copy request at step i
implies a BufferDone among the events up to and including step i, and the
running flag can only have reached false after a Ready event was
handled. -/
theorem frame_temporal_discipline :
    ∀ (s : State) (evs : List FrameEvent),
      (∀ (i : Nat) (b : BufferRef),
        Action.copy b ∈ actionsAt s evs i →
        FrameEvent.bufferDone ∈ evs.take (i + 1)) ∧
      (∀ n : Nat, s.running = true →
        (stateAfterFrames s (evs.take n)).running = false →
        FrameEvent.ready ∈ evs.take n) :=
  fun s evs =>
    ⟨fun i b h => copy_needs_bufferDone evs s i b h,
     fun n h1 h2 => running_false_needs_ready evs s n h1 h2⟩

/-- C7 counterexample: a single dispatch batch delivering two Ready
events (two frames completing before the loop re-checks the flag) makes
the program assign running := false twice in one run, refuting the claim
that no event sequence assigns it false more than once. -/
theorem running_double_assignment :
    State.new.running = true ∧
    assignsFalseCount
        (allActions
          (runLoop State.new
            [[Ev.frame FrameEvent.ready, Ev.frame FrameEvent.ready]]).2) =
      2 := by
  decide

/-- C7 amended: running starts true and is assigned false only by the
frame handler on a Ready event - exactly one assignment per Ready event
processed, and no assignment by any other handler - but a batch with two
Ready events performs the assignment twice. -/
theorem running_assignment_discipline :
    State.new.running = true ∧
    (∀ (s : State) (ev : Ev),
      (dispatchEv s ev).1.running =
        (if ev = Ev.frame FrameEvent.ready then false else s.running) ∧
      assignsFalseCount (dispatchEv s ev).2 =
        (if ev = Ev.frame FrameEvent.ready then 1 else 0)) :=
  ⟨rfl, fun s ev => ⟨dispatchEv_running s ev, dispatchEv_assignsFalse s ev⟩⟩

/-- C8 counterexample: the per-pixel remap is not injective on 4-byte
groups - it discards the fourth byte - so it is not a bijection. -/
theorem remap_not_injective :
    remapChunk [0, 0, 0, 0] = remapChunk [0, 0, 0, 1] ∧
    ([0, 0, 0, 0] : List Nat) ≠ [0, 0, 0, 1] := by
  decide

/-- C8 amended: the remap (b, g, r, x) to (r, g, b, 0xFF) is not a
bijection on arbitrary 4-byte groups (the fourth byte is discarded and
forced to 0xFF); restricted to groups whose fourth byte is 0xFF it is an
involution, hence a bijection there, and the three colour bytes are
always preserved up to the b/r swap. -/
theorem remap_bijective_on_opaque_groups :
    ∀ b g r x : Nat,
      remapChunk [b, g, r, x] = some [r, g, b, 255] ∧
      groupRemap (b, g, r, x) = (r, g, b, 255) ∧
      groupRemap (groupRemap (b, g, r, 255)) = (b, g, r, 255) :=
  fun _ _ _ _ => ⟨rfl, rfl, rfl⟩

/-- C9 counterexample: a mapped region of 8294399 bytes - one byte short
of the expected 1920 * 1080 * 4 - is not fatal: the final 3-byte chunk
still yields a full output pixel, the converted array has exactly
8294400 bytes and the image is saved. -/
theorem save_short_buffer_not_fatal :
    (∃ img,
      save_image
          { State.new with mmap := some (List.replicate 8294399 0) } =
        SaveResult.saved img) ∧
    (List.replicate 8294399 (0 : Nat)).length ≠ 1920 * 1080 * 4 := by
  constructor
  · rw [save_image_saved_iff]
    simp only [List.length_replicate]
    decide
  · simp only [List.length_replicate]
    decide

/-- C9 amended: with a mapped region present, the convert-and-emit step
aborts the process iff the mapped length leaves a short chunk of 1 or 2
bytes (indexing panic) or the converted array - 4 output bytes per chunk,
a final 3-byte chunk included - holds fewer than 1920 * 1080 * 4 bytes;
otherwise it saves the image.  A length of exactly 8294399 therefore
proceeds despite mismatching the fixed expectation. -/
theorem save_image_abort_characterisation :
    ∀ bytes : List Nat,
      (save_image { State.new with mmap := some bytes } =
          SaveResult.panicked ↔
        (bytes.length % 4 = 1 ∨ bytes.length % 4 = 2 ∨
          4 * ((bytes.length + 3) / 4) < 1920 * 1080 * 4)) ∧
      ((∃ img, save_image { State.new with mmap := some bytes } =
          SaveResult.saved img) ↔
        ¬(bytes.length % 4 = 1 ∨ bytes.length % 4 = 2 ∨
          4 * ((bytes.length + 3) / 4) < 1920 * 1080 * 4)) :=
  fun bytes => ⟨save_image_panicked_iff bytes, save_image_saved_iff bytes⟩

/-- C10: a Ready event arriving while no mapped region exists still
destroys the frame and sets running to false, but save_image silently
does nothing: no image is produced, no panic occurs, and the loop exits
with success and no output artifact. -/
theorem ready_without_mapped_region (s : State) (h : s.mmap = none) :
    frameEvent s FrameEvent.ready =
      ({ s with running := false },
       [Action.destroyFrame, Action.setRunning false,
        Action.emitImage SaveResult.noBuffer]) ∧
    (runLoop State.new [[Ev.frame FrameEvent.ready]]).1.running = false ∧
    producedImages
        (allActions (runLoop State.new [[Ev.frame FrameEvent.ready]]).2) =
      [] ∧
    hasPanic
        (allActions (runLoop State.new [[Ev.frame FrameEvent.ready]]).2) =
      false := by
  refine ⟨?_, by decide, by decide, by decide⟩
  have hsave : save_image { s with running := false } =
      SaveResult.noBuffer := by
    simp [save_image, h]
  show ({ s with running := false },
    [Action.destroyFrame, Action.setRunning false,
     Action.emitImage (save_image { s with running := false })]) = _
  rw [hsave]

/-- Witness for C10 at the initial state, whose mapped region is None. -/
theorem ready_without_mapped_region_witness :
    State.new.mmap = none ∧
    frameEvent State.new FrameEvent.ready =
      ({ State.new with running := false },
       [Action.destroyFrame, Action.setRunning false,
        Action.emitImage SaveResult.noBuffer]) :=
  ⟨rfl, (ready_without_mapped_region State.new rfl).1⟩

end Screencopy


